import Mathlib

/-!
Verification of `scripts/generate_solar_frames.py`.

Shallow embedding conventions:
* Python `datetime.datetime` values produced by the script always carry
  time 00:00:00, so a datetime is modelled by its calendar date, and — for
  the frame-sampling loop, which only adds whole-day `timedelta`s and
  compares chronologically — by its proleptic-Gregorian ordinal
  (`Date.toOrdinal`, matching Python's `date.toordinal`).
* Python `float` arithmetic on the orbital-period constants is modelled by
  exact rational arithmetic on the same decimal literals.
* Machine integers are modelled by `Int`/`Nat`; Python `int(x)` on a float
  is truncation toward zero (`pyInt`).
-/

namespace SolarFrames

/-- A calendar date (year, month, day); the script's datetimes always have
time normalized to midnight, so the date is the whole state. -/
structure Date where
  y : Int
  m : Int
  d : Int
deriving DecidableEq, Repr

/-- Gregorian leap-year rule, as used by Python's `calendar.monthrange`. -/
def isLeap (y : Int) : Prop := y % 4 = 0 ∧ (y % 100 ≠ 0 ∨ y % 400 = 0)

instance : DecidablePred isLeap := fun y => by unfold isLeap; infer_instance

/-- Number of days in a month: `calendar.monthrange(y, m)[1]`. -/
def daysInMonth (y m : Int) : Int :=
  if m = 2 then (if isLeap y then 29 else 28)
  else if m = 4 ∨ m = 6 ∨ m = 9 ∨ m = 11 then 30
  else 31

/-- A date the Python `datetime` module can represent (year at least 1,
month in 1..12, day in 1..month length). -/
def Valid (dt : Date) : Prop :=
  1 ≤ dt.y ∧ 1 ≤ dt.m ∧ dt.m ≤ 12 ∧ 1 ≤ dt.d ∧ dt.d ≤ daysInMonth dt.y dt.m

instance : DecidablePred Valid := fun dt => by unfold Valid; infer_instance

/-- Chronological order on dates, i.e. Python's `datetime` comparison
(lexicographic on year, month, day at equal times-of-day). -/
def dateLE (a b : Date) : Prop :=
  a.y < b.y ∨ (a.y = b.y ∧ (a.m < b.m ∨ (a.m = b.m ∧ a.d ≤ b.d)))

instance : ∀ a b, Decidable (dateLE a b) := fun a b => by unfold dateLE; infer_instance

/-- Embedding of `calculate_age` (src/scripts/generate_solar_frames.py
lines 18-43), for a present birth date.  (The `birth_date is None` early
return at line 20 is unreachable in `main`, where `birth_date = start` is
always a parsed date; it is therefore not modelled.) -/
def calculate_age (birth_date current_date : Date) : Int × Int × Int :=
  let years := current_date.y - birth_date.y
  let months := current_date.m - birth_date.m
  let days := current_date.d - birth_date.d
  let md :=
    if days < 0 then
      let prev_month := if current_date.m = 1 then (12 : Int) else current_date.m - 1
      let prev_year := if current_date.m = 1 then current_date.y - 1 else current_date.y
      (months - 1, days + daysInMonth prev_year prev_month)
    else (months, days)
  let ym := if md.1 < 0 then (years - 1, md.1 + 12) else (years, md.1)
  (ym.1, ym.2, md.2)

/-- The calendar successor of a date. -/
def nextDay (dt : Date) : Date :=
  if dt.d < daysInMonth dt.y dt.m then ⟨dt.y, dt.m, dt.d + 1⟩
  else if dt.m < 12 then ⟨dt.y, dt.m + 1, 1⟩
  else ⟨dt.y + 1, 1, 1⟩

/-- The calendar predecessor of a date. -/
def prevDay (dt : Date) : Date :=
  if 1 < dt.d then ⟨dt.y, dt.m, dt.d - 1⟩
  else if 1 < dt.m then ⟨dt.y, dt.m - 1, daysInMonth dt.y (dt.m - 1)⟩
  else ⟨dt.y - 1, 12, 31⟩

/-- Shift a date by a (possibly negative) number of days. -/
def addDays (dt : Date) (k : Int) : Date :=
  if 0 ≤ k then nextDay^[k.toNat] dt else prevDay^[(-k).toNat] dt

/-- Modelled from the spec (§4.2, §8): the reconstruction operator
"start + years*1y + months*1mo + days*1d using calendar month arithmetic".
Years and months are added together as `12*years + months` calendar
months, the day-of-month is clamped to the target month's length (the
relativedelta-style reading of calendar month arithmetic), and the day
component is then added as a day shift.  This operator appears only in the
spec; the script itself never reconstructs a date from an age triple. -/
def specAdvance (start : Date) (age : Int × Int × Int) : Date :=
  let tm := start.y * 12 + (start.m - 1) + (12 * age.1 + age.2.1)
  let ny := tm / 12
  let nm := tm % 12 + 1
  let nd := min start.d (daysInMonth ny nm)
  addDays ⟨ny, nm, nd⟩ age.2.2

/-- Days of the proleptic Gregorian calendar strictly before January 1 of
year `y` (as in CPython's `datetime._days_before_year`). -/
def daysBeforeYear (y : Int) : Int :=
  365 * (y - 1) + (y - 1) / 4 - (y - 1) / 100 + (y - 1) / 400

/-- Days in year `y` strictly before the first of month `m` (as in
CPython's `datetime._days_before_month`). -/
def daysBeforeMonth (y m : Int) : Int :=
  (if 1 < m then 31 else 0) + (if 2 < m then daysInMonth y 2 else 0) +
  (if 3 < m then 31 else 0) + (if 4 < m then 30 else 0) +
  (if 5 < m then 31 else 0) + (if 6 < m then 30 else 0) +
  (if 7 < m then 31 else 0) + (if 8 < m then 31 else 0) +
  (if 9 < m then 30 else 0) + (if 10 < m then 31 else 0) +
  (if 11 < m then 30 else 0)

/-- Proleptic Gregorian ordinal of a date, matching Python's
`date.toordinal` (January 1 of year 1 is day 1). -/
def toOrdinal (dt : Date) : Int := daysBeforeYear dt.y + daysBeforeMonth dt.y dt.m + dt.d

/-- Embedding of the frame-sampling `while` loop of `main`
(src/scripts/generate_solar_frames.py lines 157-206) over day ordinals:
`t` is the current instant, `e` the end instant, `s` the step in days.
Each emitted element is one fetched frame's instant.  The loop body emits
`t`; if `t + s` overshoots `e` while `t < e` it emits one final sample at
`e` and breaks, otherwise it continues from `t + s`. -/
def sampleFrom (e s : Nat) : Nat → List Nat := fun t =>
  if 0 < s ∧ t ≤ e then
    if t + s > e then
      if t < e then [t, e] else [t]
    else t :: sampleFrom e s (t + s)
  else []
termination_by t => e - t
decreasing_by omega

/-- The full sample sequence of a run: the loop started at `start`. -/
def samples (start e s : Nat) : List Nat := sampleFrom e s start

/-- The nine bodies named in the script's constant table. -/
inductive Planet where
  | Mercury | Venus | Earth | Mars | Jupiter | Saturn | Uranus | Neptune | Pluto
deriving DecidableEq, Repr

/-- Orbital period table `ORBITAL_PERIODS_DAYS`
(src/scripts/generate_solar_frames.py lines 46-56), float literals read as
exact rationals. -/
def ORBITAL_PERIODS_DAYS : Planet → ℚ
  | .Mercury => 87.969
  | .Venus => 224.701
  | .Earth => 365.256
  | .Mars => 686.980
  | .Jupiter => 4332.59
  | .Saturn => 10759.22
  | .Uranus => 30685.4
  | .Neptune => 60189.0
  | .Pluto => 90560.0

/-- Reference period `EARTH_PERIOD` (line 58). -/
def EARTH_PERIOD : ℚ := ORBITAL_PERIODS_DAYS .Earth

/-- The keys of the `SYNODIC_INNER` dict (line 62). -/
def innerPlanets : List Planet := [.Mercury, .Venus]

/-- The keys of the `SYNODIC_OUTER` dict (line 67). -/
def outerPlanets : List Planet := [.Mars, .Jupiter, .Saturn, .Uranus, .Neptune, .Pluto]

/-- Synodic period of an inner planet (lines 61-64):
`1.0 / abs((1.0 / p) - (1.0 / EARTH_PERIOD))`. -/
def SYNODIC_INNER (p : Planet) : ℚ := 1 / |1 / ORBITAL_PERIODS_DAYS p - 1 / EARTH_PERIOD|

/-- Synodic period of an outer planet (lines 66-69):
`1.0 / abs((1.0 / EARTH_PERIOD) - (1.0 / p))`. -/
def SYNODIC_OUTER (p : Planet) : ℚ := 1 / |1 / EARTH_PERIOD - 1 / ORBITAL_PERIODS_DAYS p|

/-- Python `int()` applied to a float: truncation toward zero. -/
def pyInt (q : ℚ) : Int := if 0 ≤ q then ⌊q⌋ else ⌈q⌉

/-- Embedding of `compute_lap_counts` (lines 73-84): the pair of the
`inner` and `outer` lap-count maps. -/
def compute_lap_counts (elapsed_days : ℚ) : (Planet → Int) × (Planet → Int) :=
  (fun p => pyInt (elapsed_days / SYNODIC_INNER p),
   fun p => pyInt (elapsed_days / SYNODIC_OUTER p))

/-- Outcome of a run of `main` after date parsing, abstracted to what the
error-handling claims need: either the fatal configuration error of lines
137-139, or the list of instants at which rendering requests (the `curl`
calls of the frame loop, lines 157-206) are issued. -/
inductive RunOutcome where
  | configError (msg : String)
  | frames (fetchInstants : List Nat)
deriving DecidableEq, Repr

/-- The step-size check and frame loop of `main` (lines 137-206): with
parsed start/end ordinals in hand, `main` first rejects a non-positive
`--step-days` (printing to stderr and exiting before the loop, before the
overlay pass and before the ffmpeg invocation), and otherwise runs the
sampling loop, issuing one rendering request per sample. -/
def runGeneration (start e : Nat) (step_days : Int) : RunOutcome :=
  if step_days ≤ 0 then .configError "Error: Step days must be positive"
  else .frames (samples start e step_days.toNat)

/-- The rendering requests an outcome performed (a configuration error
aborts before any request). -/
def renderRequests : RunOutcome → List Nat
  | .configError _ => []
  | .frames l => l

/-- Elapsed days used by the overlay pass for frame `frame_num` (line 252:
`current_date = start + datetime.timedelta(days=(frame_num - 1) * args.step_days)`,
then line 261: `elapsed_days = (current_date - start).days`). -/
def overlayElapsedDays (s frame_num : Nat) : Nat := (frame_num - 1) * s

/-- Ordinal of the date the overlay pass annotates frame `frame_num` with
(line 252). -/
def overlayDate (start s frame_num : Nat) : Nat :=
  start + overlayElapsedDays s frame_num

/-- Core invariant of the sampling loop: started at any `t ≤ e` with a
positive step, it emits a strictly increasing list whose first element is
`t` and whose last element is `e`.  Stated with an explicit bound `n` on
`e - t` to drive the induction. -/
theorem sampleFrom_props (n : Nat) : ∀ e s t, 0 < s → t ≤ e → e - t ≤ n →
    (sampleFrom e s t).head? = some t ∧ (sampleFrom e s t).getLast? = some e ∧
    (sampleFrom e s t).Chain' (· < ·) := by
  induction n with
  | zero =>
    intro e s t hs ht hn
    have hte : t = e := by omega
    subst hte
    rw [sampleFrom, if_pos ⟨hs, le_refl t⟩, if_pos (by omega : t + s > t),
      if_neg (lt_irrefl t)]
    exact ⟨rfl, rfl, List.chain'_singleton t⟩
  | succ n ih =>
    intro e s t hs ht hn
    rw [sampleFrom, if_pos ⟨hs, ht⟩]
    by_cases h1 : t + s > e
    · rw [if_pos h1]
      by_cases h2 : t < e
      · rw [if_pos h2]
        exact ⟨rfl, rfl, List.chain'_pair.mpr h2⟩
      · rw [if_neg h2]
        have hte : t = e := by omega
        exact ⟨rfl, by rw [hte]; rfl, List.chain'_singleton t⟩
    · rw [if_neg h1]
      obtain ⟨hh, hl, hc⟩ := ih e s (t + s) hs (by omega) (by omega)
      refine ⟨rfl, ?_, ?_⟩
      · rcases hrest : sampleFrom e s (t + s) with _ | ⟨r, rest⟩
        · rw [hrest] at hh; exact absurd hh (by simp)
        · rw [hrest] at hl
          rw [List.getLast?_cons_cons]
          exact hl
      · rw [List.chain'_cons']
        refine ⟨?_, hc⟩
        intro y hy
        rw [hh] at hy
        have hyeq : t + s = y := by simpa using hy
        omega

/-- Length of the sampling loop's output: the ceiling of `(e - t) / s`
plus one, in the usual natural-number encoding of the ceiling. -/
theorem sampleFrom_length (n : Nat) : ∀ e s t, 0 < s → t ≤ e → e - t ≤ n →
    (sampleFrom e s t).length = (e - t + s - 1) / s + 1 := by
  induction n with
  | zero =>
    intro e s t hs ht hn
    have hte : t = e := by omega
    subst hte
    rw [sampleFrom, if_pos ⟨hs, le_refl t⟩, if_pos (by omega : t + s > t),
      if_neg (lt_irrefl t)]
    have h0 : (s - 1) / s = 0 := Nat.div_eq_of_lt (by omega)
    simp [h0]
  | succ n ih =>
    intro e s t hs ht hn
    rw [sampleFrom, if_pos ⟨hs, ht⟩]
    by_cases h1 : t + s > e
    · rw [if_pos h1]
      by_cases h2 : t < e
      · rw [if_pos h2]
        have hq : (e - t + s - 1) / s = 1 := by
          refine Nat.div_eq_of_lt_le (by omega) (by omega)
        simp [hq]
      · rw [if_neg h2]
        have hte : t = e := by omega
        subst hte
        have h0 : (s - 1) / s = 0 := Nat.div_eq_of_lt (by omega)
        simp [h0]
    · rw [if_neg h1]
      have hrec := ih e s (t + s) hs (by omega) (by omega)
      have hsplit : e - t + s - 1 = (e - (t + s) + s - 1) + s := by omega
      have hstep : (e - t + s - 1) / s = (e - (t + s) + s - 1) / s + 1 := by
        rw [hsplit, Nat.add_div_right _ hs]
      simp only [List.length_cons, hrec, hstep]

/-- Ceiling division of naturals expressed through floor division. -/
theorem ceil_div_nat (d s : Nat) (hs : 0 < s) :
    ⌈(d : ℚ) / s⌉ = ((d + s - 1) / s : Nat) := by
  have hmod := Nat.div_add_mod (d + s - 1) s
  have hlt := Nat.mod_lt (d + s - 1) hs
  have h1 : d ≤ s * ((d + s - 1) / s) := by omega
  have h2 : s * ((d + s - 1) / s) < d + s := by omega
  have hsq : (0 : ℚ) < s := by exact_mod_cast hs
  have h1q : (d : ℚ) ≤ s * ((d + s - 1) / s : Nat) := by exact_mod_cast h1
  have h2q : (s : ℚ) * ((d + s - 1) / s : Nat) < d + s := by exact_mod_cast h2
  rw [Int.ceil_eq_iff]
  constructor
  · rw [lt_div_iff₀ hsq, Int.cast_natCast]
    linarith
  · rw [div_le_iff₀ hsq, Int.cast_natCast]
    linarith

/-- C1: for every date range with `start < end` and `step_days ≥ 1`, the
sequence of sample instants produced by the sample loop is strictly
increasing in calendar instant, its first element equals `start`, and its
last element equals `end`.  (Instants are proleptic-Gregorian ordinals.) -/
theorem c1_sequencer_strict_mono_first_last (start e s : Nat)
    (hs : 1 ≤ s) (hlt : start < e) :
    (samples start e s).Chain' (· < ·) ∧
    (samples start e s).head? = some start ∧
    (samples start e s).getLast? = some e := by
  obtain ⟨hh, hl, hc⟩ :=
    sampleFrom_props (e - start) e s start hs (Nat.le_of_lt hlt) (le_refl _)
  exact ⟨hc, hh, hl⟩

theorem c1_witness :
    (samples 730120 730129 3).Chain' (· < ·) ∧
    (samples 730120 730129 3).head? = some 730120 ∧
    (samples 730120 730129 3).getLast? = some 730129 :=
  c1_sequencer_strict_mono_first_last 730120 730129 3 (by norm_num) (by norm_num)

/-- C2: for every range with `start ≤ end` and `step_days ≥ 1`, the number
of samples equals `⌈(end − start) / step_days⌉ + 1` (stated both with the
rational ceiling and with its natural-number encoding); in particular when
`start = end` exactly one sample is emitted. -/
theorem c2_sample_count (start e s : Nat) (hs : 1 ≤ s) (hle : start ≤ e) :
    ((samples start e s).length : ℤ) = ⌈((e - start : Nat) : ℚ) / s⌉ + 1 ∧
    (samples start e s).length = (e - start + s - 1) / s + 1 ∧
    (start = e → (samples start e s).length = 1) := by
  have hlen : (samples start e s).length = (e - start + s - 1) / s + 1 :=
    sampleFrom_length (e - start) e s start hs hle (le_refl _)
  refine ⟨?_, hlen, ?_⟩
  · rw [hlen, ceil_div_nat (e - start) s hs]
    push_cast
    ring
  · intro hse
    subst hse
    rw [hlen]
    have h0 : (start - start + s - 1) / s = 0 := Nat.div_eq_of_lt (by omega)
    omega

theorem c2_witness :
    ((samples 730120 730129 3).length : ℤ) = ⌈((730129 - 730120 : Nat) : ℚ) / 3⌉ + 1 ∧
    (samples 730120 730129 3).length = (730129 - 730120 + 3 - 1) / 3 + 1 ∧
    (730120 = 730129 → (samples 730120 730129 3).length = 1) :=
  c2_sample_count 730120 730129 3 (by norm_num) (by norm_num)

/-- C4 counterexample: on `start = 2000-01-01` (ordinal 730120),
`end = 2000-01-10` (ordinal 730129), `step_days = 3`, the loop emits 4
samples, not the 5 the claim asserts: 2000-01-10 is 9 elapsed days after
2000-01-01, 9 is an exact multiple of 3, so no forced final sample
occurs. -/
theorem c4_count_is_not_five : (samples 730120 730129 3).length ≠ 5 := by
  have : samples 730120 730129 3 = [730120, 730123, 730126, 730129] := by
    simp [samples, sampleFrom]
  rw [this]
  simp

/-- C4 (amended): for `start = 2000-01-01`, `end = 2000-01-10`,
`step_days = 3`, the sequencer emits samples at elapsed days 0, 3, 6, 9;
day 9 is the end date itself (2000-01-10 has ordinal 730129 = 730120 + 9),
so no forced final sample is emitted and the total is 4 samples. -/
theorem c4_amended_scenario :
    toOrdinal ⟨2000, 1, 1⟩ = 730120 ∧ toOrdinal ⟨2000, 1, 10⟩ = 730129 ∧
    samples 730120 730129 3 = [730120, 730123, 730126, 730129] ∧
    (samples 730120 730129 3).length = 4 := by
  refine ⟨by decide, by decide, ?_, ?_⟩ <;> simp [samples, sampleFrom]

/-- C9: a run invoked with a non-positive step size hits the fatal
configuration-error branch before the frame loop, so no rendering request
(and a fortiori no overlay or encoder step, which come later) is made. -/
theorem c9_nonpositive_step_rejected (start e : Nat) (k : Int) (hk : k ≤ 0) :
    runGeneration start e k = .configError "Error: Step days must be positive" ∧
    renderRequests (runGeneration start e k) = [] := by
  unfold runGeneration
  rw [if_pos hk]
  exact ⟨rfl, rfl⟩

theorem c9_witness :
    runGeneration 730120 730129 0 = .configError "Error: Step days must be positive" ∧
    renderRequests (runGeneration 730120 730129 0) = [] :=
  c9_nonpositive_step_rejected 730120 730129 0 (by norm_num)

/-- C5 (code bug): with `start = 2000-01-01` (ordinal 730120),
`end = 2000-01-08` (ordinal 730127), `step_days = 3`, the loop fetches 4
frames, the last a forced final frame at the end date 730127; but the
overlay pass annotates frame 4 with
`start + (4 - 1) * 3 = 730129` (2000-01-10) and elapsed 9 days, not with
the sample's own date 730127 and elapsed 7 days. -/
theorem c5_final_frame_annotation_mismatch :
    samples 730120 730127 3 = [730120, 730123, 730126, 730127] ∧
    (samples 730120 730127 3).getLast? = some 730127 ∧
    overlayDate 730120 3 4 = 730129 ∧
    overlayElapsedDays 3 4 = 9 ∧
    overlayDate 730120 3 4 ≠ 730127 ∧
    toOrdinal ⟨2000, 1, 1⟩ = 730120 ∧ toOrdinal ⟨2000, 1, 8⟩ = 730127 ∧
    toOrdinal ⟨2000, 1, 10⟩ = 730129 := by
  have h : samples 730120 730127 3 = [730120, 730123, 730126, 730127] := by
    simp [samples, sampleFrom]
  exact ⟨h, by rw [h]; rfl, by decide, by decide, by decide, by decide, by decide, by decide⟩

/-- Each inner-planet synodic period is a positive rational. -/
theorem SYNODIC_INNER_pos : ∀ p ∈ innerPlanets, 0 < SYNODIC_INNER p := by
  intro p hp
  fin_cases hp <;>
  · rw [SYNODIC_INNER,
      abs_of_pos (by norm_num [ORBITAL_PERIODS_DAYS, EARTH_PERIOD])]
    norm_num [ORBITAL_PERIODS_DAYS, EARTH_PERIOD]

/-- Each outer-planet synodic period is a positive rational. -/
theorem SYNODIC_OUTER_pos : ∀ p ∈ outerPlanets, 0 < SYNODIC_OUTER p := by
  intro p hp
  fin_cases hp <;>
  · rw [SYNODIC_OUTER,
      abs_of_pos (by norm_num [ORBITAL_PERIODS_DAYS, EARTH_PERIOD])]
    norm_num [ORBITAL_PERIODS_DAYS, EARTH_PERIOD]

/-- Truncation toward zero is monotone on nonnegative rationals. -/
theorem pyInt_mono_nonneg {a b : ℚ} (ha : 0 ≤ a) (hab : a ≤ b) :
    pyInt a ≤ pyInt b := by
  rw [pyInt, pyInt, if_pos ha, if_pos (le_trans ha hab)]
  exact Int.floor_le_floor hab

/-- A single lap count is monotone in elapsed days. -/
theorem lap_mono {s : ℚ} (hs : 0 < s) {d1 d2 : ℚ} (h0 : 0 ≤ d1) (h12 : d1 ≤ d2) :
    pyInt (d1 / s) ≤ pyInt (d2 / s) := by
  refine pyInt_mono_nonneg (div_nonneg h0 hs.le) ?_
  gcongr

/-- C7: for every planet in the synodic tables, `compute_lap_counts` is
monotone non-decreasing in `elapsed_days` over `elapsed_days ≥ 0`, and at
`elapsed_days = 0` every lap count is 0. -/
theorem c7_lap_counts_monotone_and_zero :
    (∀ d1 d2 : ℚ, 0 ≤ d1 → d1 ≤ d2 →
      (∀ p ∈ innerPlanets, (compute_lap_counts d1).1 p ≤ (compute_lap_counts d2).1 p) ∧
      (∀ p ∈ outerPlanets, (compute_lap_counts d1).2 p ≤ (compute_lap_counts d2).2 p)) ∧
    (∀ p : Planet, (compute_lap_counts 0).1 p = 0 ∧ (compute_lap_counts 0).2 p = 0) := by
  constructor
  · intro d1 d2 h0 h12
    constructor
    · intro p hp
      exact lap_mono (SYNODIC_INNER_pos p hp) h0 h12
    · intro p hp
      exact lap_mono (SYNODIC_OUTER_pos p hp) h0 h12
  · intro p
    constructor <;> simp [compute_lap_counts, pyInt]

theorem c7_witness :
    (compute_lap_counts 100).1 Planet.Mercury ≤ (compute_lap_counts 200).1 Planet.Mercury ∧
    (compute_lap_counts 0).1 Planet.Mercury = 0 :=
  ⟨(c7_lap_counts_monotone_and_zero.1 100 200 (by norm_num) (by norm_num)).1
      Planet.Mercury (by decide),
   (c7_lap_counts_monotone_and_zero.2 Planet.Mercury).1⟩

/-- C8 counterexample: Venus is in the inner table and Jupiter in the
outer table, yet Venus's synodic period (about 583.9 days) is strictly
larger than Jupiter's (about 398.9 days), so it is false that every inner
synodic period is smaller than every outer one. -/
theorem c8_counterexample :
    Planet.Venus ∈ innerPlanets ∧ Planet.Jupiter ∈ outerPlanets ∧
    ¬(SYNODIC_INNER Planet.Venus < SYNODIC_OUTER Planet.Jupiter) ∧
    SYNODIC_OUTER Planet.Jupiter < SYNODIC_INNER Planet.Venus := by
  refine ⟨by decide, by decide, ?_, ?_⟩ <;>
  · rw [SYNODIC_INNER, SYNODIC_OUTER,
      abs_of_pos (by norm_num [ORBITAL_PERIODS_DAYS, EARTH_PERIOD]),
      abs_of_pos (by norm_num [ORBITAL_PERIODS_DAYS, EARTH_PERIOD])]
    norm_num [ORBITAL_PERIODS_DAYS, EARTH_PERIOD]

/-- C8 (amended): of the two inner planets only Mercury's synodic period
is strictly smaller than every outer planet's synodic period; Venus's is
strictly larger than Jupiter's (and indeed larger than every outer one but
Mars's). -/
theorem c8_amended_mercury_below_every_outer :
    ∀ q ∈ outerPlanets, SYNODIC_INNER Planet.Mercury < SYNODIC_OUTER q := by
  intro q hq
  fin_cases hq <;>
  · rw [SYNODIC_INNER, SYNODIC_OUTER,
      abs_of_pos (by norm_num [ORBITAL_PERIODS_DAYS, EARTH_PERIOD]),
      abs_of_pos (by norm_num [ORBITAL_PERIODS_DAYS, EARTH_PERIOD])]
    norm_num [ORBITAL_PERIODS_DAYS, EARTH_PERIOD]

theorem c8_witness : SYNODIC_INNER Planet.Mercury < SYNODIC_OUTER Planet.Mars :=
  c8_amended_mercury_below_every_outer Planet.Mars (by decide)

/-- C10: for every non-Earth planet in the tables, the reciprocal
difference in the synodic formula is non-zero, so the synodic period the
script computes at startup is a well-defined strictly positive value. -/
theorem c10_synodic_well_defined :
    (∀ p ∈ innerPlanets,
      1 / EARTH_PERIOD - 1 / ORBITAL_PERIODS_DAYS p ≠ 0 ∧ 0 < SYNODIC_INNER p) ∧
    (∀ p ∈ outerPlanets,
      1 / EARTH_PERIOD - 1 / ORBITAL_PERIODS_DAYS p ≠ 0 ∧ 0 < SYNODIC_OUTER p) := by
  constructor
  · intro p hp
    refine ⟨?_, SYNODIC_INNER_pos p hp⟩
    fin_cases hp <;> norm_num [ORBITAL_PERIODS_DAYS, EARTH_PERIOD]
  · intro p hp
    refine ⟨?_, SYNODIC_OUTER_pos p hp⟩
    fin_cases hp <;> norm_num [ORBITAL_PERIODS_DAYS, EARTH_PERIOD]

theorem c10_witness :
    1 / EARTH_PERIOD - 1 / ORBITAL_PERIODS_DAYS Planet.Mercury ≠ 0 ∧
    0 < SYNODIC_INNER Planet.Mercury :=
  c10_synodic_well_defined.1 Planet.Mercury (by decide)

/-- Every month length is between 28 and 31 days. -/
theorem daysInMonth_bounds (y m : Int) : 28 ≤ daysInMonth y m ∧ daysInMonth y m ≤ 31 := by
  rw [daysInMonth]
  split_ifs <;> omega

/-- The total month count of an age decomposition, as a function of the
raw year/month/day differences. -/
theorem calculate_age_total_months (b c : Date) :
    12 * (calculate_age b c).1 + (calculate_age b c).2.1 =
      12 * (c.y - b.y) + (c.m - b.m) - (if c.d - b.d < 0 then 1 else 0) := by
  simp only [calculate_age]
  split_ifs <;> simp <;> ring

/-- The day component of an age decomposition, as a function of the raw
day difference and the borrowed previous-month length. -/
theorem calculate_age_days (b c : Date) :
    (calculate_age b c).2.2 = c.d - b.d +
      (if c.d - b.d < 0 then
        daysInMonth (if c.m = 1 then c.y - 1 else c.y) (if c.m = 1 then 12 else c.m - 1)
      else 0) := by
  simp only [calculate_age]
  split_ifs <;> simp

/-- C3 counterexample: for `start = 2023-01-31` and `current = 2023-03-01`
(a valid pair with `current ≥ start`), `calculate_age` returns a day
component of −2: the borrow adds the 28 days of February 2023 to the raw
difference 1 − 31 = −30, which is not enough to make it nonnegative. -/
theorem c3_counterexample :
    Valid ⟨2023, 1, 31⟩ ∧ Valid ⟨2023, 3, 1⟩ ∧
    dateLE ⟨2023, 1, 31⟩ ⟨2023, 3, 1⟩ ∧
    calculate_age ⟨2023, 1, 31⟩ ⟨2023, 3, 1⟩ = (0, 1, -2) ∧
    ¬(0 ≤ (calculate_age ⟨2023, 1, 31⟩ ⟨2023, 3, 1⟩).2.2) := by decide

/-- C3 (amended): for every valid pair with `current ≥ start`, the months
component satisfies `0 ≤ months ≤ 11`, and the day component satisfies
`days ≥ −2` (it can be −1 or −2 exactly when `current.day < start.day` and
`start.day` exceeds the length of the month preceding `current`). -/
theorem c3_amended_age_bounds (b c : Date) (hb : Valid b) (hc : Valid c)
    (hle : dateLE b c) :
    0 ≤ (calculate_age b c).2.1 ∧ (calculate_age b c).2.1 ≤ 11 ∧
    -2 ≤ (calculate_age b c).2.2 := by
  obtain ⟨hby, hbm1, hbm2, hbd1, hbd2⟩ := hb
  obtain ⟨hcy, hcm1, hcm2, hcd1, hcd2⟩ := hc
  have hbB := daysInMonth_bounds b.y b.m
  have hcB := daysInMonth_bounds c.y c.m
  have hp1 := daysInMonth_bounds c.y (c.m - 1)
  have hp2 := daysInMonth_bounds (c.y - 1) 12
  simp only [calculate_age]
  split_ifs <;> simp <;> omega

theorem c3_witness :
    0 ≤ (calculate_age ⟨1975, 1, 1⟩ ⟨2025, 2, 28⟩).2.1 ∧
    (calculate_age ⟨1975, 1, 1⟩ ⟨2025, 2, 28⟩).2.1 ≤ 11 ∧
    -2 ≤ (calculate_age ⟨1975, 1, 1⟩ ⟨2025, 2, 28⟩).2.2 :=
  c3_amended_age_bounds ⟨1975, 1, 1⟩ ⟨2025, 2, 28⟩ (by decide) (by decide) (by decide)

/-- Iterating the day successor inside a single month just adds to the
day-of-month. -/
theorem nextDay_iterate_within (k : Nat) : ∀ y m d : Int, 1 ≤ d →
    d + (k : Int) ≤ daysInMonth y m →
    nextDay^[k] (⟨y, m, d⟩ : Date) = ⟨y, m, d + (k : Int)⟩ := by
  induction k with
  | zero =>
    intro y m d h1 h2
    simp
  | succ k ih =>
    intro y m d h1 h2
    rw [Function.iterate_succ_apply]
    have hlt : d < daysInMonth y m := by
      have : ((k + 1 : Nat) : Int) = (k : Int) + 1 := by push_cast; ring
      omega
    rw [show nextDay ⟨y, m, d⟩ = ⟨y, m, d + 1⟩ by rw [nextDay]; simp [hlt]]
    rw [ih y m (d + 1) (by omega) (by push_cast at h2 ⊢; omega)]
    exact congrArg (Date.mk y m) (by push_cast; ring)

/-- Crossing the boundary from the last day of a month to the first of
the next: `hsucc` fixes the successor month, `bd` is the starting day in
the earlier month, `cd` the target day in the later month. -/
theorem advance_from_prev_month (py pm cy cm bd cd : Int)
    (hsucc : nextDay ⟨py, pm, daysInMonth py pm⟩ = ⟨cy, cm, 1⟩)
    (hbd1 : 1 ≤ bd) (hbd2 : bd ≤ daysInMonth py pm)
    (hcd1 : 1 ≤ cd) (hcd2 : cd ≤ daysInMonth cy cm) :
    nextDay^[(cd - bd + daysInMonth py pm).toNat] (⟨py, pm, bd⟩ : Date) =
      ⟨cy, cm, cd⟩ := by
  have hL1 : (((daysInMonth py pm - bd).toNat : Nat) : Int) = daysInMonth py pm - bd :=
    Int.toNat_of_nonneg (by omega)
  have hC1 : (((cd - 1).toNat : Nat) : Int) = cd - 1 := Int.toNat_of_nonneg (by omega)
  have hk : (cd - bd + daysInMonth py pm).toNat =
      ((cd - 1).toNat + 1) + (daysInMonth py pm - bd).toNat := by omega
  rw [hk, Function.iterate_add_apply]
  rw [nextDay_iterate_within ((daysInMonth py pm - bd).toNat) py pm bd hbd1 (by omega)]
  rw [show bd + (((daysInMonth py pm - bd).toNat : Nat) : Int) = daysInMonth py pm by omega]
  rw [Function.iterate_add_apply, Function.iterate_one, hsucc]
  rw [nextDay_iterate_within ((cd - 1).toNat) cy cm 1 (by norm_num) (by omega)]
  exact congrArg (Date.mk cy cm) (by omega)

/-- C6 counterexample: for `start = 2024-01-30` and `current = 2024-03-01`
(valid, with `current ≥ start`), `calculate_age` returns `(0, 1, 0)`, and
advancing the start by one calendar month (clamping 30 to February's 29
days) and zero days gives 2024-02-29, not `current`. -/
theorem c6_counterexample :
    Valid ⟨2024, 1, 30⟩ ∧ Valid ⟨2024, 3, 1⟩ ∧
    dateLE ⟨2024, 1, 30⟩ ⟨2024, 3, 1⟩ ∧
    calculate_age ⟨2024, 1, 30⟩ ⟨2024, 3, 1⟩ = (0, 1, 0) ∧
    specAdvance ⟨2024, 1, 30⟩ (calculate_age ⟨2024, 1, 30⟩ ⟨2024, 3, 1⟩) = ⟨2024, 2, 29⟩ ∧
    specAdvance ⟨2024, 1, 30⟩ (calculate_age ⟨2024, 1, 30⟩ ⟨2024, 3, 1⟩) ≠ ⟨2024, 3, 1⟩ := by
  decide

/-- C6 (amended): the round trip is exact whenever no day-of-month
clamping occurs, i.e. whenever `current.day ≥ start.day`, or
`start.day` does not exceed the length of the month preceding `current`
(the month whose length the borrow uses). -/
theorem c6_amended_roundtrip (b c : Date) (hb : Valid b) (hc : Valid c)
    (hle : dateLE b c)
    (hcond : b.d ≤ c.d ∨
      b.d ≤ daysInMonth (if c.m = 1 then c.y - 1 else c.y) (if c.m = 1 then 12 else c.m - 1)) :
    specAdvance b (calculate_age b c) = c := by
  obtain ⟨hby, hbm1, hbm2, hbd1, hbd2⟩ := hb
  obtain ⟨hcy, hcm1, hcm2, hcd1, hcd2⟩ := hc
  have hT := calculate_age_total_months b c
  have hD := calculate_age_days b c
  simp only [specAdvance]
  by_cases h : c.d - b.d < 0
  · rw [if_pos h] at hT hD
    by_cases hm : c.m = 1
    · simp only [if_pos hm] at hD hcond
      have hcond' : b.d ≤ daysInMonth (c.y - 1) 12 := hcond.resolve_left (by omega)
      have hLB := daysInMonth_bounds (c.y - 1) 12
      rw [hT, hD]
      rw [show b.y * 12 + (b.m - 1) + (12 * (c.y - b.y) + (c.m - b.m) - 1) =
        12 * (c.y - 1) + 11 by omega]
      rw [show (12 * (c.y - 1) + 11) / 12 = c.y - 1 by omega,
        show (12 * (c.y - 1) + 11) % 12 = 11 by omega]
      rw [show (11 : Int) + 1 = 12 by norm_num]
      rw [min_eq_left hcond']
      rw [addDays, if_pos (show (0 : Int) ≤ c.d - b.d + daysInMonth (c.y - 1) 12 by omega)]
      refine advance_from_prev_month (c.y - 1) 12 c.y c.m b.d c.d ?_ hbd1 hcond' hcd1 hcd2
      rw [nextDay]
      rw [if_neg (lt_irrefl _), if_neg (by norm_num)]
      rw [hm]
      exact congrArg (fun t => Date.mk t 1 1) (by ring)
    · simp only [if_neg hm] at hD hcond
      have hcond' : b.d ≤ daysInMonth c.y (c.m - 1) := hcond.resolve_left (by omega)
      have hLB := daysInMonth_bounds c.y (c.m - 1)
      rw [hT, hD]
      rw [show b.y * 12 + (b.m - 1) + (12 * (c.y - b.y) + (c.m - b.m) - 1) =
        12 * c.y + (c.m - 2) by omega]
      rw [show (12 * c.y + (c.m - 2)) / 12 = c.y by omega,
        show (12 * c.y + (c.m - 2)) % 12 = c.m - 2 by omega]
      rw [show c.m - 2 + 1 = c.m - 1 by ring]
      rw [min_eq_left hcond']
      rw [addDays, if_pos (show (0 : Int) ≤ c.d - b.d + daysInMonth c.y (c.m - 1) by omega)]
      refine advance_from_prev_month c.y (c.m - 1) c.y c.m b.d c.d ?_ hbd1 hcond' hcd1 hcd2
      rw [nextDay]
      rw [if_neg (lt_irrefl _), if_pos (by omega : c.m - 1 < 12)]
      exact congrArg (fun t => Date.mk c.y t 1) (by ring)
  · rw [if_neg h] at hT hD
    rw [hT, hD]
    rw [show b.y * 12 + (b.m - 1) + (12 * (c.y - b.y) + (c.m - b.m) - 0) =
      12 * c.y + (c.m - 1) by omega]
    rw [show (12 * c.y + (c.m - 1)) / 12 = c.y by omega,
      show (12 * c.y + (c.m - 1)) % 12 = c.m - 1 by omega]
    rw [show c.m - 1 + 1 = c.m by ring]
    rw [min_eq_left (show b.d ≤ daysInMonth c.y c.m by omega)]
    rw [addDays, if_pos (show (0 : Int) ≤ c.d - b.d + 0 by omega)]
    rw [show c.d - b.d + 0 = c.d - b.d by ring]
    rw [nextDay_iterate_within ((c.d - b.d).toNat) c.y c.m b.d hbd1
      (by have := Int.toNat_of_nonneg (show (0 : Int) ≤ c.d - b.d by omega); omega)]
    exact congrArg (Date.mk c.y c.m)
      (by have := Int.toNat_of_nonneg (show (0 : Int) ≤ c.d - b.d by omega); omega)

theorem c6_witness :
    specAdvance ⟨1975, 1, 1⟩ (calculate_age ⟨1975, 1, 1⟩ ⟨2025, 2, 28⟩) = ⟨2025, 2, 28⟩ :=
  c6_amended_roundtrip ⟨1975, 1, 1⟩ ⟨2025, 2, 28⟩ (by decide) (by decide) (by decide)
    (by decide)

end SolarFrames
